import Mathlib

/-!
Verification of the transaction-construction and submission core of the
hathor-wallet-lib repository against its natural-language specification.

The development shallowly embeds the two source files:

* `src/tokens.js` — token configuration strings, token index lookup, the
  melt UTXO selector (`getMeltInputs`), `meltTokens` and the two-phase
  `createToken` flow;
* `src/wallet/sendTransaction.js` — the mining submission state machine
  (`submitJob` / `handleJobStatus`).

External collaborators that are not part of the given sources
(`transaction.js`, `wallet.js`, `constants.js`, the HTTP clients) are either
modelled from the spec (marked in doc comments) or abstracted as parameters.
-/

namespace Hathor

/-! ## Configuration strings (src/tokens.js) -/

/-- Token configuration record `{uid, name, symbol}` as handled by
`tokens.js` (the objects returned by `getTokenFromConfigurationString` and
stored in the token registry). -/
structure TokenConfig where
  uid : String
  name : String
  symbol : String
deriving DecidableEq, Repr

/-- JavaScript `s.split(':')` on the character list of a string: splits into
colon-separated fields, keeping empty fields, and returns `[s]` when there is
no colon (so it never returns an empty list). -/
def splitCols : List Char → List (List Char)
  | [] => [[]]
  | c :: rest =>
    match splitCols rest with
    | [] => [[]]
    | g :: gs => if c = ':' then [] :: g :: gs else (c :: g) :: gs

/-- JavaScript `arr.join(':')`: interleaves the fields with single colons. -/
def joinCols : List (List Char) → List Char
  | [] => []
  | [g] => g
  | g :: gs => g ++ ':' :: joinCols gs

/-- Hex digit for a value below 16, lowercase (used to render checksum bytes
the way `Buffer.toString('hex')` does). -/
def toHexDigit (n : Nat) : Char :=
  if n < 10 then Char.ofNat (48 + n) else Char.ofNat (87 + n)

/-- Renders a 32-bit value as 8 lowercase hex characters, big-endian. -/
def natToHex8 (n : Nat) : List Char :=
  (List.range 8).map (fun i => toHexDigit (n / 16 ^ (7 - i) % 16))

/-- One mixing pass of the modelled digest, folding a character into a 32-bit
accumulator. -/
def mixHash (h : Nat) (c : Char) : Nat :=
  (h * 131 + c.toNat) % 4294967296

/-- A single 32-bit digest pass over a character list. -/
def hashOnce (data : List Char) : Nat :=
  data.foldl mixHash 5381

/-- Modelled from the spec: `transaction.getChecksum` lives in
`transaction.js`, which is not part of the given sources.  The spec describes
it as a deterministic double cryptographic hash whose first 4 bytes are used,
rendered as hex in the configuration string.  It is modelled here as a
deterministic double digest producing a 4-byte value rendered as 8 lowercase
hex characters; the claims about configuration strings depend only on
determinism and on the output alphabet (hex digits, so never `:`). -/
def checksumHexL (data : List Char) : List Char :=
  natToHex8 (hashOnce (natToHex8 (hashOnce data)))

/-- `tokens.getConfigurationString(uid, name, symbol)` on character lists:
builds `[name:symbol:uid:checksum]`. -/
def getConfigurationStringL (uid name symbol : List Char) : List Char :=
  let partConfig := name ++ ':' :: symbol ++ ':' :: uid
  '[' :: ((partConfig ++ ':' :: checksumHexL partConfig) ++ [']'])

/-- `tokens.getConfigurationString(uid, name, symbol)` (src/tokens.js,
lines 191–195). -/
def getConfigurationString (uid name symbol : String) : String :=
  String.mk (getConfigurationStringL uid.data name.data symbol.data)

/-- `tokens.getTokenFromConfigurationString(config)` on the character list of
the input (src/tokens.js, lines 210–233): validates the outer brackets,
splits the body on `:`, requires at least 4 fields, removes the trailing
checksum field, recomputes the checksum over the rejoined remaining fields,
and finally pops uid and symbol, joining whatever is left back into the name
(which may itself contain colons).  Returns `none` exactly where the source
returns `null`. -/
def getTokenFromConfigurationStringL (config : List Char) : Option TokenConfig :=
  match config with
  | [] => none
  | c :: rest =>
    if c = '[' ∧ List.getLast? (c :: rest) = some ']' then
      let configArr := splitCols rest.dropLast
      if configArr.length < 4 then none
      else
        let checksum := configArr.getLast?.getD []
        let configArr1 := configArr.dropLast
        let configWithoutChecksum := joinCols configArr1
        if checksumHexL configWithoutChecksum = checksum then
          let uid := configArr1.getLast?.getD []
          let configArr2 := configArr1.dropLast
          let symbol := configArr2.getLast?.getD []
          let configArr3 := configArr2.dropLast
          let name := joinCols configArr3
          some ⟨String.mk uid, String.mk name, String.mk symbol⟩
        else none
    else none

/-- `tokens.getTokenFromConfigurationString(config)` (src/tokens.js,
lines 210–233). -/
def getTokenFromConfigurationString (config : String) : Option TokenConfig :=
  getTokenFromConfigurationStringL config.data

/-! ### Splitting and joining lemmas -/

theorem splitCols_ne_nil (l : List Char) : splitCols l ≠ [] := by
  cases l with
  | nil => simp [splitCols]
  | cons c rest =>
    simp only [splitCols]
    rcases h : splitCols rest with _ | ⟨g, gs⟩
    · simp
    · by_cases hc : c = ':' <;> simp [hc]

theorem splitCols_append (x y : List Char) :
    splitCols (x ++ ':' :: y) = splitCols x ++ splitCols y := by
  induction x with
  | nil =>
    rcases h : splitCols y with _ | ⟨g, gs⟩
    · exact absurd h (splitCols_ne_nil y)
    · simp [splitCols, h]
  | cons c x' ih =>
    rcases h : splitCols x' with _ | ⟨g', gs'⟩
    · exact absurd h (splitCols_ne_nil x')
    · simp only [List.cons_append, splitCols, List.append_eq]
      rw [ih, h]
      by_cases hc : c = ':' <;> simp [hc]

theorem splitCols_no_colon (l : List Char) (h : ':' ∉ l) : splitCols l = [l] := by
  induction l with
  | nil => simp [splitCols]
  | cons c rest ih =>
    simp only [List.mem_cons, not_or] at h
    have hc : c ≠ ':' := fun hc => h.1 hc.symm
    simp [splitCols, ih h.2, hc]

theorem joinCols_cons₂ (g h : List Char) (t : List (List Char)) :
    joinCols (g :: h :: t) = g ++ ':' :: joinCols (h :: t) := rfl

theorem joinCols_append (gs hs : List (List Char)) (h1 : gs ≠ []) (h2 : hs ≠ []) :
    joinCols (gs ++ hs) = joinCols gs ++ ':' :: joinCols hs := by
  induction gs with
  | nil => exact absurd rfl h1
  | cons g gs' ih =>
    cases gs' with
    | nil =>
      rcases hs with _ | ⟨h, ht⟩
      · exact absurd rfl h2
      · simp [joinCols_cons₂, joinCols]
    | cons g₂ gs'' =>
      have ih' := ih (by simp)
      rw [List.cons_append] at ih'
      simp only [List.cons_append, joinCols_cons₂, ih', List.append_assoc]

theorem joinCols_splitCols (l : List Char) : joinCols (splitCols l) = l := by
  induction l with
  | nil => simp [splitCols, joinCols]
  | cons c rest ih =>
    rcases h : splitCols rest with _ | ⟨g, gs⟩
    · exact absurd h (splitCols_ne_nil rest)
    · rw [h] at ih
      by_cases hc : c = ':'
      · subst hc
        simp [splitCols, h, joinCols_cons₂, ih]
      · cases gs with
        | nil => simpa [splitCols, h, hc, joinCols] using congrArg (c :: ·) ih
        | cons g₂ gs' =>
          simpa [splitCols, h, hc, joinCols_cons₂] using congrArg (c :: ·) ih

theorem toHexDigit_ne_colon : ∀ n < 16, toHexDigit n ≠ ':' := by decide

theorem natToHex8_no_colon (n : Nat) : ':' ∉ natToHex8 n := by
  simp only [natToHex8, List.mem_map, List.mem_range]
  rintro ⟨i, -, hi⟩
  exact toHexDigit_ne_colon _ (Nat.mod_lt _ (by norm_num)) hi

theorem checksumHexL_no_colon (data : List Char) : ':' ∉ checksumHexL data :=
  natToHex8_no_colon _

/-- Round-trip of the configuration string at the character-list level, for
symbols and uids that contain no colon. -/
theorem roundtripL (ud nd sd : List Char) (hsd : ':' ∉ sd) (hud : ':' ∉ ud) :
    getTokenFromConfigurationStringL (getConfigurationStringL ud nd sd) =
      some ⟨String.mk ud, String.mk nd, String.mk sd⟩ := by
  have hN := splitCols_ne_nil nd
  have harr : splitCols ((nd ++ ':' :: sd ++ ':' :: ud) ++
      ':' :: checksumHexL (nd ++ ':' :: sd ++ ':' :: ud)) =
      splitCols nd ++ [sd, ud, checksumHexL (nd ++ ':' :: sd ++ ':' :: ud)] := by
    have hshape : (nd ++ ':' :: sd ++ ':' :: ud) ++
        ':' :: checksumHexL (nd ++ ':' :: sd ++ ':' :: ud) =
        nd ++ ':' :: (sd ++ ':' :: (ud ++
          ':' :: checksumHexL (nd ++ ':' :: sd ++ ':' :: ud))) := by
      simp [List.append_assoc]
    rw [hshape, splitCols_append, splitCols_append, splitCols_append,
      splitCols_no_colon sd hsd, splitCols_no_colon ud hud,
      splitCols_no_colon _ (checksumHexL_no_colon _)]
    rfl
  have hlast : List.getLast? ('[' :: (((nd ++ ':' :: sd ++ ':' :: ud) ++
      ':' :: checksumHexL (nd ++ ':' :: sd ++ ':' :: ud)) ++ [']'])) = some ']' := by
    rw [← List.cons_append]
    exact List.getLast?_concat _
  have hlen : ¬ (splitCols nd ++
      [sd, ud, checksumHexL (nd ++ ':' :: sd ++ ':' :: ud)]).length < 4 := by
    have := List.length_pos.mpr hN
    simp only [List.length_append, List.length_cons, List.length_nil]
    omega
  have e0 : splitCols nd ++ [sd, ud, checksumHexL (nd ++ ':' :: sd ++ ':' :: ud)] =
      (splitCols nd ++ [sd, ud]) ++ [checksumHexL (nd ++ ':' :: sd ++ ':' :: ud)] := by
    simp
  have e0' : splitCols nd ++ [sd, ud] = (splitCols nd ++ [sd]) ++ [ud] := by simp
  have e3 : joinCols (splitCols nd ++ [sd, ud]) = nd ++ ':' :: joinCols [sd, ud] := by
    rw [joinCols_append _ _ hN (by simp), joinCols_splitCols]
  show getTokenFromConfigurationStringL ('[' :: (((nd ++ ':' :: sd ++ ':' :: ud) ++
      ':' :: checksumHexL (nd ++ ':' :: sd ++ ':' :: ud)) ++ [']'])) = _
  simp only [getTokenFromConfigurationStringL]
  have ej : joinCols [sd, ud] = sd ++ ':' :: ud := rfl
  have eP : nd ++ ':' :: (sd ++ ':' :: ud) = nd ++ ':' :: sd ++ ':' :: ud := by simp
  rw [if_pos ⟨trivial, hlast⟩, List.dropLast_concat, harr, if_neg hlen,
    e0, List.dropLast_concat, List.getLast?_concat, Option.getD_some, e3, ej, eP]
  rw [if_pos rfl]
  rw [e0', List.getLast?_concat, List.dropLast_concat, List.getLast?_concat,
    List.dropLast_concat, Option.getD_some, Option.getD_some, joinCols_splitCols]

/-- C3 (amended): for every uid, symbol and name where the name has no outer
brackets and the symbol and uid contain no colon, parsing the produced
configuration string round-trips:
`getTokenFromConfigurationString (getConfigurationString uid name symbol)`
returns `{uid, name, symbol}`.  Names may contain colons: the parser treats
the last two colon-separated fields before the checksum as symbol and uid and
rejoins the remaining leading fields into the name. -/
theorem configurationString_roundtrip (uid name symbol : String)
    (hname : ¬(name.data.head? = some '[' ∧ name.data.getLast? = some ']'))
    (hsym : ':' ∉ symbol.data) (huid : ':' ∉ uid.data) :
    getTokenFromConfigurationString (getConfigurationString uid name symbol) =
      some ⟨uid, name, symbol⟩ := by
  obtain ⟨ud⟩ := uid
  obtain ⟨nd⟩ := name
  obtain ⟨sd⟩ := symbol
  exact roundtripL ud nd sd hsym huid

/-- C3 witness: a concrete round-trip through the configuration string, with
a colon inside the token name. -/
theorem configurationString_roundtrip_witness :
    getTokenFromConfigurationString (getConfigurationString "u1" "My:Token" "MTK") =
      some ⟨"u1", "My:Token", "MTK"⟩ :=
  configurationString_roundtrip "u1" "My:Token" "MTK" (by decide) (by decide) (by decide)

/-- C3 counterexample: with a symbol that itself contains a colon the claim
fails as stated — the parse succeeds (the checksum still matches) but the
colon-bearing symbol is split across the name and symbol fields, so the
round-trip does not return the original triple. -/
theorem configurationString_roundtrip_cex :
    getTokenFromConfigurationString (getConfigurationString "u" "N" "A:B") =
      some ⟨"u", "N:A", "B"⟩ ∧
    getTokenFromConfigurationString (getConfigurationString "u" "N" "A:B") ≠
      some ⟨"u", "N", "A:B"⟩ := by
  constructor
  · decide
  · decide

/-- C4: `getTokenFromConfigurationString` returns `null` (`none`) — and, being
embedded as a total function of the same control flow, never throws — whenever
the outer brackets are malformed, or fewer than 4 colon-separated fields are
present, or the checksum recomputed over everything except the trailing
checksum field differs from that trailing field. -/
theorem getTokenFromConfigurationString_malformed (config : String) :
    ((config.data.head? ≠ some '[' ∨ config.data.getLast? ≠ some ']') →
        getTokenFromConfigurationString config = none)
  ∧ ((splitCols config.data.tail.dropLast).length < 4 →
        getTokenFromConfigurationString config = none)
  ∧ (checksumHexL (joinCols (splitCols config.data.tail.dropLast).dropLast) ≠
        (splitCols config.data.tail.dropLast).getLast?.getD [] →
        getTokenFromConfigurationString config = none) := by
  obtain ⟨cs⟩ := config
  cases cs with
  | nil => exact ⟨fun _ => rfl, fun _ => rfl, fun _ => rfl⟩
  | cons c rest =>
    by_cases hb : c = '[' ∧ List.getLast? (c :: rest) = some ']'
    · refine ⟨?_, ?_, ?_⟩
      · rintro (h1 | h2)
        · exact absurd (show (String.mk (c :: rest)).data.head? = some '[' by
            simp [List.head?_cons, hb.1]) h1
        · exact absurd hb.2 h2
      · intro hlen
        have hlen' : (splitCols rest.dropLast).length < 4 := hlen
        show getTokenFromConfigurationStringL (c :: rest) = none
        simp only [getTokenFromConfigurationStringL]
        rw [if_pos hb, if_pos hlen']
      · intro hchk
        have hchk' : checksumHexL (joinCols (splitCols rest.dropLast).dropLast) ≠
            (splitCols rest.dropLast).getLast?.getD [] := hchk
        show getTokenFromConfigurationStringL (c :: rest) = none
        simp only [getTokenFromConfigurationStringL]
        rw [if_pos hb]
        by_cases hlen : (splitCols rest.dropLast).length < 4
        · rw [if_pos hlen]
        · rw [if_neg hlen, if_neg hchk']
    · have hnone : getTokenFromConfigurationStringL (c :: rest) = none := by
        simp only [getTokenFromConfigurationStringL]
        rw [if_neg hb]
      exact ⟨fun _ => hnone, fun _ => hnone, fun _ => hnone⟩

/-- C4 witness: concrete malformed configuration strings of each kind —
missing brackets, fewer than four fields, and a tampered checksum — all
parse to `none`. -/
theorem getTokenFromConfigurationString_malformed_witness :
    getTokenFromConfigurationString "ab:cd:ef:00000000" = none ∧
    getTokenFromConfigurationString "[ab:cd]" = none ∧
    getTokenFromConfigurationString "[ab:cd:ef:00000000]" = none :=
  ⟨(getTokenFromConfigurationString_malformed "ab:cd:ef:00000000").1 (by decide),
   (getTokenFromConfigurationString_malformed "[ab:cd]").2.1 (by decide),
   (getTokenFromConfigurationString_malformed "[ab:cd:ef:00000000]").2.2 (by decide)⟩

/-! ## Token index (src/tokens.js, `filterTokens` / `getTokenIndex`) -/

/-- Modelled from the spec: `HATHOR_TOKEN_CONFIG` comes from `constants.js`,
which is not part of the given sources.  The spec only needs it as the
distinguished native-token configuration; its uid is the fixed native-token
marker. -/
def HATHOR_TOKEN_CONFIG : TokenConfig := ⟨"00", "Hathor", "HTR"⟩

/-- `tokens.filterTokens(tokens, toRemove)` (src/tokens.js, lines 439–441):
removes every config whose uid equals the uid of `toRemove`. -/
def filterTokens (tokens : List TokenConfig) (toRemove : TokenConfig) : List TokenConfig :=
  tokens.filter (fun token => token.uid ≠ toRemove.uid)

/-- JavaScript `Array.prototype.findIndex`: index of the first element
satisfying the predicate, `-1` when there is none. -/
def findIndex (p : α → Bool) : List α → Int
  | [] => -1
  | a :: rest =>
    if p a then 0
    else
      let r := findIndex p rest
      if r = -1 then -1 else r + 1

/-- `tokens.getTokenIndex(tokens, uid)` (src/tokens.js, lines 454–464):
0 for the native token, otherwise `findIndex` over the list with the native
token filtered out, plus one. -/
def getTokenIndex (tokens : List TokenConfig) (uid : String) : Int :=
  if uid = HATHOR_TOKEN_CONFIG.uid then 0
  else
    let tokensWithoutHathor := filterTokens tokens HATHOR_TOKEN_CONFIG
    let myIndex := findIndex (fun token => token.uid = uid) tokensWithoutHathor
    myIndex + 1

theorem findIndex_nonneg_or (p : α → Bool) (l : List α) :
    findIndex p l = -1 ∨ 0 ≤ findIndex p l := by
  induction l with
  | nil => left; rfl
  | cons a rest ih =>
    simp only [findIndex]
    by_cases hp : p a
    · right; simp [hp]
    · simp only [hp, if_false, Bool.false_eq_true]
      rcases ih with h | h
      · left; simp [h]
      · rw [if_neg (by omega)]; right; omega

theorem findIndex_eq_of (p : α → Bool) (l : List α) (k : Nat) (a : α)
    (hk : l.get? k = some a) (ha : p a = true)
    (hlt : ∀ j, j < k → ∀ b, l.get? j = some b → p b = false) :
    findIndex p l = (k : Int) := by
  induction l generalizing k with
  | nil => simp at hk
  | cons x rest ih =>
    cases k with
    | zero =>
      simp only [List.get?] at hk
      obtain rfl : x = a := by injection hk
      simp [findIndex, ha]
    | succ k' =>
      have hx : p x = false := hlt 0 (Nat.succ_pos _) x rfl
      have hrec := ih k' hk (fun j hj b hb => hlt (j + 1) (by omega) b hb)
      simp only [findIndex, hx, Bool.false_eq_true, if_false]
      rw [hrec, if_neg (by omega)]
      push_cast
      ring

theorem findIndex_eq_neg_one (p : α → Bool) (l : List α)
    (h : ∀ a ∈ l, p a = false) : findIndex p l = -1 := by
  induction l with
  | nil => rfl
  | cons x rest ih =>
    have hx := h x (by simp)
    simp [findIndex, hx, ih (fun a ha => h a (by simp [ha]))]

/-- C9: `getTokenIndex` returns 0 for the native token uid; for a uid present
among the non-native tokens it returns the 1-based position of the first
occurrence of that uid in the list with the native token filtered out; and
for an absent uid it returns the invalid index 0 instead of signaling an
error (JavaScript `findIndex` returns -1, and -1 + 1 = 0). -/
theorem getTokenIndex_spec (tokens : List TokenConfig) (uid : String) :
    (uid = HATHOR_TOKEN_CONFIG.uid → getTokenIndex tokens uid = 0)
  ∧ (uid ≠ HATHOR_TOKEN_CONFIG.uid →
      ∀ k t, (filterTokens tokens HATHOR_TOKEN_CONFIG).get? k = some t →
        t.uid = uid →
        (∀ j, j < k →
          ((filterTokens tokens HATHOR_TOKEN_CONFIG).get? j).map TokenConfig.uid ≠
            some uid) →
        getTokenIndex tokens uid = (k : Int) + 1)
  ∧ (uid ≠ HATHOR_TOKEN_CONFIG.uid →
      (∀ t ∈ filterTokens tokens HATHOR_TOKEN_CONFIG, t.uid ≠ uid) →
      getTokenIndex tokens uid = 0) := by
  refine ⟨fun h => by simp [getTokenIndex, h], ?_, ?_⟩
  · intro hne k t hk ht hlt
    have hidx : findIndex (fun token => token.uid = uid)
        (filterTokens tokens HATHOR_TOKEN_CONFIG) = (k : Int) := by
      refine findIndex_eq_of _ _ k t hk (by simp [ht]) ?_
      intro j hj b hb
      have := hlt j hj
      rw [hb] at this
      simp only [decide_eq_false_iff_not]
      intro hbu
      exact this (by rw [show (some b).map TokenConfig.uid = some b.uid from rfl, hbu])
    simp [getTokenIndex, hne, hidx]
  · intro hne habs
    have hidx : findIndex (fun token => token.uid = uid)
        (filterTokens tokens HATHOR_TOKEN_CONFIG) = -1 := by
      refine findIndex_eq_neg_one _ _ ?_
      intro a ha
      simp only [decide_eq_false_iff_not]
      exact habs a ha
    simp [getTokenIndex, hne, hidx]

/-- C9 witness: on a concrete registry, the native uid maps to 0, a present
non-native uid maps to its 1-based filtered position, and an absent uid maps
to the invalid index 0. -/
theorem getTokenIndex_spec_witness :
    getTokenIndex [⟨"00", "Hathor", "HTR"⟩, ⟨"ab", "Alpha", "ALP"⟩,
      ⟨"cd", "Beta", "BET"⟩] "00" = 0 ∧
    getTokenIndex [⟨"00", "Hathor", "HTR"⟩, ⟨"ab", "Alpha", "ALP"⟩,
      ⟨"cd", "Beta", "BET"⟩] "cd" = 2 ∧
    getTokenIndex [⟨"00", "Hathor", "HTR"⟩, ⟨"ab", "Alpha", "ALP"⟩,
      ⟨"cd", "Beta", "BET"⟩] "zz" = 0 :=
  ⟨(getTokenIndex_spec _ "00").1 rfl,
   (getTokenIndex_spec _ "cd").2.1 (by decide) 1 ⟨"cd", "Beta", "BET"⟩
     (by decide) rfl (by decide),
   (getTokenIndex_spec _ "zz").2.2 (by decide) (by decide)⟩

/-! ## Melt UTXO selector and meltTokens (src/tokens.js) -/

/-- Modelled from the spec: the authority capability masks and the authority
token-data marker live in `constants.js`, which is not part of the given
sources.  The spec describes them as bit flags combined by bitwise OR; their
concrete values are irrelevant to the claims. -/
def TOKEN_CREATION_MASK : Nat := 1

/-- Modelled from the spec: mint capability bit flag (see
`TOKEN_CREATION_MASK`). -/
def TOKEN_MINT_MASK : Nat := 2

/-- Modelled from the spec: melt capability bit flag (see
`TOKEN_CREATION_MASK`). -/
def TOKEN_MELT_MASK : Nat := 4

/-- Modelled from the spec: tokenData value marking an authority output (see
`TOKEN_CREATION_MASK`). -/
def AUTHORITY_TOKEN_DATA : Nat := 128

/-- Transaction input as built by tokens.js:
`{tx_id, index, token, address}`. -/
structure Input where
  tx_id : String
  index : Nat
  token : String
  address : String
deriving DecidableEq, Repr

/-- Transaction output as built by tokens.js:
`{address, value, tokenData}` (for authority outputs `value` holds a
capability mask). -/
structure Output where
  address : String
  value : Nat
  tokenData : Nat
deriving DecidableEq, Repr

/-- Transaction skeleton handed to `transaction.sendTransaction`:
`{inputs, outputs, tokens}`. -/
structure TxData where
  inputs : List Input
  outputs : List Output
  tokens : List String
deriving DecidableEq, Repr

/-- An output of a history transaction as consumed by `getMeltInputs`.
`address` stands for `txout.decoded.address`; `authority` models the result
of the external predicate `wallet.isAuthorityOutput(txout)`. -/
structure HistOutput where
  value : Nat
  token : String
  spent_by : Option String
  address : String
  authority : Bool
deriving DecidableEq, Repr

/-- A history transaction as consumed by `getMeltInputs`. -/
structure HistTx where
  tx_id : String
  is_voided : Bool
  outputs : List HistOutput
deriving DecidableEq, Repr

/-- The wallet data consumed by `getMeltInputs`.  `historyTransactions`
stands for the output of the external
`wallet.filterHistoryTransactions(data.historyTransactions, token)` (the
history already filtered for the requested token — the loop still re-checks
every output's token); `isMine` models the external predicate
`wallet.isAddressMine(address, data)`. -/
structure WalletData where
  historyTransactions : List HistTx
  isMine : String → Bool

/-- The record `{inputs, inputsAmount}` returned by `getMeltInputs` on
success. -/
structure MeltResult where
  inputs : List Input
  inputsAmount : Nat
deriving DecidableEq, Repr

/-- Inner loop of `getMeltInputs` over `tx.outputs.entries()` (src/tokens.js,
lines 381–394): skips authority outputs, accumulates unspent outputs of the
requested token owned by the wallet, and returns early (`Sum.inr`) as soon as
the accumulated amount reaches `amount`; otherwise hands the accumulators
back (`Sum.inl`). -/
def meltScanOutputs (isMine : String → Bool) (token : String) (amount : Nat)
    (txId : String) : List (Nat × HistOutput) → List Input → Nat →
    (List Input × Nat) ⊕ MeltResult
  | [], acc, accAmt => .inl (acc, accAmt)
  | (idx, txout) :: rest, acc, accAmt =>
    if txout.authority then
      meltScanOutputs isMine token amount txId rest acc accAmt
    else if txout.spent_by = none ∧ txout.token = token ∧ isMine txout.address then
      let acc' := acc ++ [⟨txId, idx, token, txout.address⟩]
      let accAmt' := accAmt + txout.value
      if amount ≤ accAmt' then .inr ⟨acc', accAmt'⟩
      else meltScanOutputs isMine token amount txId rest acc' accAmt'
    else meltScanOutputs isMine token amount txId rest acc accAmt

/-- Outer loop of `getMeltInputs` over the filtered history (src/tokens.js,
lines 376–397): voided transactions are skipped entirely; the scan stops with
`some` as soon as the inner loop reports success and yields `none` when the
history is exhausted. -/
def meltScanTxs (isMine : String → Bool) (token : String) (amount : Nat) :
    List HistTx → List Input → Nat → Option MeltResult
  | [], _, _ => none
  | tx :: rest, acc, accAmt =>
    if tx.is_voided then meltScanTxs isMine token amount rest acc accAmt
    else
      match meltScanOutputs isMine token amount tx.tx_id tx.outputs.enum acc accAmt with
      | .inr r => some r
      | .inl (acc', accAmt') => meltScanTxs isMine token amount rest acc' accAmt'

/-- `tokens.getMeltInputs(amount, token)` (src/tokens.js, lines 366–398):
returns `null` when the wallet data is missing, otherwise scans the filtered
history accumulating melt inputs. -/
def getMeltInputs (data : Option WalletData) (amount : Nat) (token : String) :
    Option MeltResult :=
  match data with
  | none => none
  | some d => meltScanTxs d.isMine token amount d.historyTransactions [] 0

/-- `tokens.meltTokens(txId, index, addressSpent, token, amount, pin,
createAnotherMelt)` (src/tokens.js, lines 337–364), returning the transaction
skeleton handed to `transaction.sendTransaction` (`none` when the selector
fails and nothing is submitted).  `changeAddress` and `meltAuthorityAddress`
stand for the results of the two external `wallet.getAddressToUse()` calls. -/
def meltTokens (data : Option WalletData) (changeAddress meltAuthorityAddress : String)
    (txId : String) (index : Nat) (addressSpent token : String) (amount : Nat)
    (createAnotherMelt : Bool) : Option TxData :=
  match getMeltInputs data amount token with
  | none => none
  | some result =>
    let authorityInput : Input := ⟨txId, index, token, addressSpent⟩
    let inputs := authorityInput :: result.inputs
    let outputs0 : List Output := []
    let outputs1 :=
      if amount < result.inputsAmount then
        outputs0 ++ [⟨changeAddress, result.inputsAmount - amount, 1⟩]
      else outputs0
    let outputs2 :=
      if createAnotherMelt then
        outputs1 ++ [⟨meltAuthorityAddress, TOKEN_MELT_MASK, AUTHORITY_TOKEN_DATA⟩]
      else outputs1
    some ⟨inputs, outputs2, [token]⟩

/-! ### Greedy characterisation of the selector -/

/-- Greedy prefix accumulation over a list of candidate inputs with their
values: add entries in order and stop as soon as the accumulated amount
reaches `amount`. -/
def greedy (amount : Nat) : List (Input × Nat) → List Input → Nat →
    (List Input × Nat) ⊕ MeltResult
  | [], acc, accAmt => .inl (acc, accAmt)
  | (inp, v) :: rest, acc, accAmt =>
    if amount ≤ accAmt + v then .inr ⟨acc ++ [inp], accAmt + v⟩
    else greedy amount rest (acc ++ [inp]) (accAmt + v)

/-- The candidate entry an enumerated output contributes: `none` for an
authority output or one failing the unspent/token/ownership test, otherwise
the input record paired with the output's value. -/
def eligEntry (isMine : String → Bool) (token : String) (txId : String)
    (p : Nat × HistOutput) : Option (Input × Nat) :=
  if p.2.authority then none
  else if p.2.spent_by = none ∧ p.2.token = token ∧ isMine p.2.address then
    some (⟨txId, p.1, token, p.2.address⟩, p.2.value)
  else none

/-- The candidate entries a single history transaction contributes, in output
order: nothing for a voided transaction, otherwise its non-authority, unspent,
token-matching, wallet-owned outputs paired with their values. -/
def eligOfTx (isMine : String → Bool) (token : String) (tx : HistTx) :
    List (Input × Nat) :=
  if tx.is_voided then []
  else tx.outputs.enum.filterMap (eligEntry isMine token tx.tx_id)

/-- All candidate entries of the wallet history, in history order.  This is
the claim-side description of which outputs the selector may accumulate. -/
def specEligible (W : WalletData) (token : String) : List (Input × Nat) :=
  W.historyTransactions.flatMap (eligOfTx W.isMine token)

/-- Sum of the values of a candidate list. -/
def sumVals (l : List (Input × Nat)) : Nat :=
  (l.map Prod.snd).sum

theorem sumVals_nil : sumVals [] = 0 := rfl

theorem sumVals_cons (p : Input × Nat) (l : List (Input × Nat)) :
    sumVals (p :: l) = p.2 + sumVals l := by
  simp [sumVals]

theorem sumVals_append (l₁ l₂ : List (Input × Nat)) :
    sumVals (l₁ ++ l₂) = sumVals l₁ + sumVals l₂ := by
  simp [sumVals]

theorem sumVals_take_le (l : List (Input × Nat)) (k : Nat) :
    sumVals (l.take k) ≤ sumVals l := by
  calc sumVals (l.take k) ≤ sumVals (l.take k) + sumVals (l.drop k) :=
        Nat.le_add_right _ _
    _ = sumVals l := by rw [← sumVals_append, List.take_append_drop]

theorem meltScanOutputs_eq_greedy (isMine : String → Bool) (token : String)
    (amount : Nat) (txId : String) :
    ∀ (outs : List (Nat × HistOutput)) (acc : List Input) (accAmt : Nat),
    meltScanOutputs isMine token amount txId outs acc accAmt =
      greedy amount (outs.filterMap (eligEntry isMine token txId)) acc accAmt := by
  intro outs
  induction outs with
  | nil => intro acc accAmt; rfl
  | cons p rest ih =>
    intro acc accAmt
    obtain ⟨idx, txout⟩ := p
    by_cases ha : txout.authority
    · simp [meltScanOutputs, List.filterMap_cons, eligEntry, ha, ih]
    · by_cases hc : txout.spent_by = none ∧ txout.token = token ∧ isMine txout.address
      · simp only [meltScanOutputs, List.filterMap_cons, eligEntry, ha, if_neg,
          Bool.false_eq_true, if_false, if_pos hc, greedy]
        by_cases hge : amount ≤ accAmt + txout.value
        · simp [hge]
        · simp [hge, ih]
      · simp [meltScanOutputs, List.filterMap_cons, eligEntry, ha, hc, ih]

theorem greedy_append (amount : Nat) (l₁ l₂ : List (Input × Nat)) :
    ∀ (acc : List Input) (accAmt : Nat),
    greedy amount (l₁ ++ l₂) acc accAmt =
      (match greedy amount l₁ acc accAmt with
       | .inr r => .inr r
       | .inl (acc', accAmt') => greedy amount l₂ acc' accAmt') := by
  induction l₁ with
  | nil => intro acc accAmt; rfl
  | cons p rest ih =>
    intro acc accAmt
    obtain ⟨inp, v⟩ := p
    by_cases h : amount ≤ accAmt + v
    · simp [greedy, h]
    · simp [greedy, h, ih]

theorem meltScanTxs_eq_greedy (isMine : String → Bool) (token : String)
    (amount : Nat) :
    ∀ (txs : List HistTx) (acc : List Input) (accAmt : Nat),
    meltScanTxs isMine token amount txs acc accAmt =
      (match greedy amount (txs.flatMap (eligOfTx isMine token)) acc accAmt with
       | .inr r => some r
       | .inl _ => none) := by
  intro txs
  induction txs with
  | nil => intro acc accAmt; rfl
  | cons tx rest ih =>
    intro acc accAmt
    by_cases hv : tx.is_voided
    · simp only [meltScanTxs, hv, if_pos, List.flatMap_cons, eligOfTx, if_true,
        List.nil_append, ih]
    · have he : eligOfTx isMine token tx =
          tx.outputs.enum.filterMap (eligEntry isMine token tx.tx_id) := by
        simp [eligOfTx, hv]
      simp only [meltScanTxs, hv, Bool.false_eq_true, if_false, List.flatMap_cons]
      rw [meltScanOutputs_eq_greedy, ← he, greedy_append]
      cases hg : greedy amount (eligOfTx isMine token tx) acc accAmt with
      | inl p => obtain ⟨acc', accAmt'⟩ := p; exact ih acc' accAmt'
      | inr r => rfl

theorem greedy_inr (amount : Nat) :
    ∀ (items : List (Input × Nat)) (acc : List Input) (accAmt : Nat)
      (r : MeltResult),
    accAmt < amount →
    greedy amount items acc accAmt = .inr r →
    ∃ k, 1 ≤ k ∧ k ≤ items.length ∧
      r.inputs = acc ++ (items.take k).map Prod.fst ∧
      r.inputsAmount = accAmt + sumVals (items.take k) ∧
      amount ≤ r.inputsAmount ∧
      accAmt + sumVals (items.take (k - 1)) < amount := by
  intro items
  induction items with
  | nil => intro acc accAmt r _ h; simp [greedy] at h
  | cons p rest ih =>
    intro acc accAmt r hlt h
    obtain ⟨inp, v⟩ := p
    by_cases hge : amount ≤ accAmt + v
    · rw [greedy, if_pos hge] at h
      obtain rfl : MeltResult.mk (acc ++ [inp]) (accAmt + v) = r := by
        injection h
      refine ⟨1, le_refl 1, by simp, by simp, ?_, ?_, ?_⟩
      · simp [sumVals_cons, sumVals_nil]
      · simpa [sumVals_cons, sumVals_nil] using hge
      · simpa [sumVals_nil] using hlt
    · rw [greedy, if_neg hge] at h
      have hlt' : accAmt + v < amount := by omega
      obtain ⟨k, hk1, hklen, hi, hamt, hge', hmin⟩ :=
        ih (acc ++ [inp]) (accAmt + v) r hlt' h
      obtain ⟨k', rfl⟩ : ∃ m, k = m + 1 := ⟨k - 1, by omega⟩
      refine ⟨k' + 2, by omega, by simp; omega, ?_, ?_, hge', ?_⟩
      · rw [hi]
        simp [List.take_succ_cons]
      · rw [hamt]
        simp only [List.take_succ_cons, sumVals_cons]
        omega
      · have h21 : k' + 2 - 1 = k' + 1 := by omega
        have h10 : k' + 1 - 1 = k' := by omega
        rw [h21]
        rw [h10] at hmin
        simp only [List.take_succ_cons, sumVals_cons]
        omega

theorem greedy_inl (amount : Nat) :
    ∀ (items : List (Input × Nat)) (acc : List Input) (accAmt : Nat)
      (a : List Input) (m : Nat),
    greedy amount items acc accAmt = .inl (a, m) →
    a = acc ++ items.map Prod.fst ∧ m = accAmt + sumVals items ∧
    (∀ k, 1 ≤ k → k ≤ items.length → accAmt + sumVals (items.take k) < amount) := by
  intro items
  induction items with
  | nil =>
    intro acc accAmt a m h
    simp only [greedy] at h
    obtain ⟨rfl, rfl⟩ : acc = a ∧ accAmt = m := by
      constructor <;> injection h with h1 <;> injection h1
    exact ⟨by simp, by simp [sumVals_nil], fun k hk1 hk0 => by simp at hk0; omega⟩
  | cons p rest ih =>
    intro acc accAmt a m h
    obtain ⟨inp, v⟩ := p
    by_cases hge : amount ≤ accAmt + v
    · rw [greedy, if_pos hge] at h
      simp at h
    · rw [greedy, if_neg hge] at h
      obtain ⟨ha, hm, hall⟩ := ih (acc ++ [inp]) (accAmt + v) a m h
      refine ⟨by simp [ha], ?_, ?_⟩
      · rw [hm, sumVals_cons]; omega
      · intro k hk1 hklen
        obtain ⟨k', rfl⟩ : ∃ m', k = m' + 1 := ⟨k - 1, by omega⟩
        simp only [List.take_succ_cons, sumVals_cons]
        rcases Nat.eq_zero_or_pos k' with rfl | hk'
        · simpa [sumVals_nil] using by omega
        · have := hall k' hk' (by simpa using hklen)
          omega

/-- C1 (amended): for every wallet history and every positive target amount,
`getMeltInputs` accumulates, in history order, exactly the outputs that
belong to the requested token, are not authority outputs, are unspent and are
owned by the wallet (voided transactions are skipped entirely): a successful
result is exactly the shortest prefix of those candidate outputs whose
running total reaches or exceeds the target, with `inputsAmount` equal to its
sum, and the failure sentinel `none` is returned precisely when the whole
history is exhausted without reaching the target. -/
theorem getMeltInputs_greedy_spec (W : WalletData) (amount : Nat) (token : String)
    (hpos : 1 ≤ amount) :
    (∀ r, getMeltInputs (some W) amount token = some r →
      ∃ k, 1 ≤ k ∧ k ≤ (specEligible W token).length ∧
        r.inputs = ((specEligible W token).take k).map Prod.fst ∧
        r.inputsAmount = sumVals ((specEligible W token).take k) ∧
        amount ≤ r.inputsAmount ∧
        sumVals ((specEligible W token).take (k - 1)) < amount)
  ∧ (getMeltInputs (some W) amount token = none ↔
      sumVals (specEligible W token) < amount) := by
  have hrw : getMeltInputs (some W) amount token =
      (match greedy amount (specEligible W token) [] 0 with
       | .inr r => some r
       | .inl _ => none) := by
    simp only [getMeltInputs]
    rw [meltScanTxs_eq_greedy]
    rfl
  constructor
  · intro r hr
    rw [hrw] at hr
    cases hg : greedy amount (specEligible W token) [] 0 with
    | inl p => rw [hg] at hr; simp at hr
    | inr r' =>
      rw [hg] at hr
      have hrr : r' = r := by injection hr
      rw [hrr] at hg
      obtain ⟨k, h1, h2, h3, h4, h5, h6⟩ :=
        greedy_inr amount _ [] 0 r (by omega) hg
      exact ⟨k, h1, h2, by simpa using h3, by simpa using h4, h5, by simpa using h6⟩
  · rw [hrw]
    constructor
    · intro hnone
      cases hg : greedy amount (specEligible W token) [] 0 with
      | inr r => rw [hg] at hnone; simp at hnone
      | inl p =>
        obtain ⟨a, m⟩ := p
        obtain ⟨ha, hm, hall⟩ := greedy_inl amount _ [] 0 a m hg
        rcases Nat.eq_zero_or_pos (specEligible W token).length with hz | hp
        · have hnil : specEligible W token = [] := List.length_eq_zero.mp hz
          rw [hnil]
          simpa [sumVals_nil] using hpos
        · have := hall (specEligible W token).length (by omega) (le_refl _)
          simpa [List.take_length] using this
    · intro hlt
      cases hg : greedy amount (specEligible W token) [] 0 with
      | inl p => rfl
      | inr r =>
        exfalso
        obtain ⟨k, -, -, -, h4, h5, -⟩ :=
          greedy_inr amount _ [] 0 r (by omega) hg
        have htake := sumVals_take_le (specEligible W token) k
        omega

/-- C1 witness: on the spec's own example the selector is applied through the
proved characterisation — with a history of outputs worth 30, 50 and 20 of
the token and an unreachable target of 200, the failure sentinel is
returned. -/
theorem getMeltInputs_greedy_spec_witness :
    getMeltInputs (some ⟨[⟨"t1", false,
      [⟨30, "tk", none, "a1", false⟩, ⟨50, "tk", none, "a1", false⟩,
       ⟨20, "tk", none, "a1", false⟩]⟩], fun _ => true⟩) 200 "tk" = none :=
  (getMeltInputs_greedy_spec ⟨[⟨"t1", false,
      [⟨30, "tk", none, "a1", false⟩, ⟨50, "tk", none, "a1", false⟩,
       ⟨20, "tk", none, "a1", false⟩]⟩], fun _ => true⟩ 200 "tk"
    (by decide)).2.mpr (by decide)

/-- C1 counterexample: at target amount 0 the claim fails as stated.  The
running total (0) already reaches the target before anything is accumulated,
yet the selector still accumulates the first eligible output (it only checks
the total after adding an input), so the returned prefix is not the one the
claim describes: the minimality condition `sumVals (take (k-1)) < amount`
is false for the returned selection. -/
theorem getMeltInputs_greedy_spec_cex :
    getMeltInputs (some ⟨[⟨"t1", false, [⟨5, "tk", none, "a1", false⟩]⟩],
      fun _ => true⟩) 0 "tk" = some ⟨[⟨"t1", 0, "tk", "a1"⟩], 5⟩ ∧
    ¬ sumVals ((specEligible ⟨[⟨"t1", false, [⟨5, "tk", none, "a1", false⟩]⟩],
      fun _ => true⟩ "tk").take (1 - 1)) < 0 := by
  exact ⟨by decide, by decide⟩

/-- C5: if the UTXO selector cannot assemble inputs totaling at least the
requested amount, `meltTokens` fails (`none`) without submitting any
transaction; and whenever the selected inputs' total exceeds the requested
amount, the submitted skeleton contains an automatically appended change
output — the first output — whose value is the surplus. -/
theorem meltTokens_change_spec (data : Option WalletData)
    (changeAddress meltAuthorityAddress txId : String) (index : Nat)
    (addressSpent token : String) (amount : Nat) (createAnotherMelt : Bool) :
    (getMeltInputs data amount token = none →
      meltTokens data changeAddress meltAuthorityAddress txId index addressSpent
        token amount createAnotherMelt = none)
  ∧ (∀ r, getMeltInputs data amount token = some r →
      amount < r.inputsAmount →
      ∃ tx, meltTokens data changeAddress meltAuthorityAddress txId index
          addressSpent token amount createAnotherMelt = some tx ∧
        tx.outputs.head? =
          some ⟨changeAddress, r.inputsAmount - amount, 1⟩) := by
  constructor
  · intro hn
    simp [meltTokens, hn]
  · intro r hr hsur
    simp only [meltTokens, hr]
    by_cases hc : createAnotherMelt <;>
      exact ⟨_, rfl, by simp [hsur, hc, List.head?]⟩

/-- C5 witness: with a single 50-value eligible output and a melt of 30, the
submitted skeleton's first output is a change output worth the surplus 20;
and with an unreachable amount, `meltTokens` returns `none`. -/
theorem meltTokens_change_spec_witness :
    (meltTokens (some ⟨[⟨"t1", false, [⟨50, "tk", none, "a1", false⟩]⟩],
        fun _ => true⟩) "chg" "mel" "t9" 0 "auth" "tk" 999 false = none)
  ∧ ∃ tx, meltTokens (some ⟨[⟨"t1", false, [⟨50, "tk", none, "a1", false⟩]⟩],
        fun _ => true⟩) "chg" "mel" "t9" 0 "auth" "tk" 30 false = some tx ∧
      tx.outputs.head? = some ⟨"chg", 50 - 30, 1⟩ :=
  ⟨(meltTokens_change_spec (some ⟨[⟨"t1", false, [⟨50, "tk", none, "a1", false⟩]⟩],
      fun _ => true⟩) "chg" "mel" "t9" 0 "auth" "tk" 999 false).1 (by decide),
   (meltTokens_change_spec (some ⟨[⟨"t1", false, [⟨50, "tk", none, "a1", false⟩]⟩],
      fun _ => true⟩) "chg" "mel" "t9" 0 "auth" "tk" 30 false).2
     ⟨[⟨"t1", 0, "tk", "a1"⟩], 50⟩ (by decide) (by decide)⟩

/-- C10: when the selector's assembled inputs total exactly the requested
amount and `createAnotherMelt` is false, the submitted skeleton has an empty
outputs list, its inputs are the melt-authority input followed by the
selected value inputs, and its tokens list is the singleton `[token]`. -/
theorem meltTokens_exact_amount (data : Option WalletData)
    (changeAddress meltAuthorityAddress txId : String) (index : Nat)
    (addressSpent token : String) (amount : Nat) (r : MeltResult)
    (hr : getMeltInputs data amount token = some r)
    (hexact : r.inputsAmount = amount) :
    meltTokens data changeAddress meltAuthorityAddress txId index addressSpent
      token amount false =
      some ⟨⟨txId, index, token, addressSpent⟩ :: r.inputs, [], [token]⟩ := by
  simp [meltTokens, hr, hexact]

/-- C10 witness: a concrete melt whose selected inputs total exactly the
requested amount submits a skeleton with no outputs, the authority input
followed by the selected input, and the singleton token list. -/
theorem meltTokens_exact_amount_witness :
    meltTokens (some ⟨[⟨"t1", false, [⟨50, "tk", none, "a1", false⟩]⟩],
        fun _ => true⟩) "chg" "mel" "t9" 3 "auth" "tk" 50 false =
      some ⟨[⟨"t9", 3, "tk", "auth"⟩, ⟨"t1", 0, "tk", "a1"⟩], [], ["tk"]⟩ :=
  meltTokens_exact_amount (some ⟨[⟨"t1", false, [⟨50, "tk", none, "a1", false⟩]⟩],
      fun _ => true⟩) "chg" "mel" "t9" 3 "auth" "tk" 50
    ⟨[⟨"t1", 0, "tk", "a1"⟩], 50⟩ (by decide) rfl

/-! ## Mining submission state machine (src/wallet/sendTransaction.js) -/

/-- The resolved transaction fields delivered on success.  `nonce` stands for
the already-decoded `parseInt(response.tx.nonce, 16)` (hex decoding is
performed by the external runtime). -/
structure TxInfo where
  nonce : Nat
  parents : List String
  timestamp : Nat
  weight : Nat
deriving DecidableEq, Repr

/-- The three error classes the machine can terminate with: the no-miners
error, the timeout error after exhausting retries, and the unexpected
(transport) error. -/
inductive MiningError where
  | noMiners
  | timeoutSolvingPow
  | unexpected
deriving DecidableEq, Repr

/-- Events emitted by `SendTransaction` (its `EventEmitter` notifications). -/
inductive MiningEvent where
  | jobSubmitted (jobID : String) (estimation : Int)
  | estimationUpdated (jobID : Option String) (estimation : Int)
  | jobDone (jobID : Option String)
  | success (tx : TxInfo)
  | sendError (err : MiningError)
  | unexpectedError (err : MiningError)
deriving DecidableEq, Repr

/-- Control phases of the machine: about to submit, waiting on a scheduled
poll, or terminated (succeeded / failed). -/
inductive Phase where
  | submitting
  | polling
  | succeeded (tx : TxInfo)
  | failed (err : MiningError)
deriving DecidableEq, Repr

/-- The mutable fields of a `SendTransaction` object together with the
control phase: `countTxMiningAttempts`, `maxTxMiningRetries`, `estimation`
and `jobID` (both initially `null`). -/
structure MinerState where
  countTxMiningAttempts : Nat
  maxTxMiningRetries : Nat
  estimation : Option Int
  jobID : Option String
  phase : Phase
deriving DecidableEq, Repr

/-- A fresh `SendTransaction` after `start()` is called: zero attempts, no
estimation or job id yet, about to submit. -/
def initState (maxRetries : Nat) : MinerState :=
  ⟨0, maxRetries, none, none, .submitting⟩

/-- Response of the mining service to `submitJob`: either
`{job_id, expected_total_time}` or a transport-level failure (the promise
`catch` path). -/
inductive SubmitResp where
  | ok (expectedTotalTime : Int) (jobId : String)
  | transportError
deriving DecidableEq, Repr

/-- Response of the mining service to `getJobStatus`: either
`{status, expected_total_time, tx}` or a transport-level failure. -/
inductive PollResp where
  | ok (status : String) (expectedTotalTime : Int) (tx : TxInfo)
  | transportError
deriving DecidableEq, Repr

/-- `submitJob` (src/wallet/sendTransaction.js, lines 85–103) as one
transition consuming the service's response: increments the attempt counter,
fails with the no-miners error on `expected_total_time = -1`, fails with the
unexpected error on transport failure, and otherwise stores the estimation
and job id, emits `job-submitted` and moves on to polling. -/
def submitStep (s : MinerState) (resp : SubmitResp) : MinerState × List MiningEvent :=
  let s := { s with countTxMiningAttempts := s.countTxMiningAttempts + 1 }
  match resp with
  | .transportError =>
    ({ s with phase := .failed .unexpected }, [.unexpectedError .unexpected])
  | .ok ett jid =>
    if ett = -1 then
      ({ s with phase := .failed .noMiners }, [.sendError .noMiners])
    else
      ({ s with estimation := some ett, jobID := some jid, phase := .polling },
       [.jobSubmitted jid ett])

/-- One `getJobStatus` callback of `handleJobStatus`
(src/wallet/sendTransaction.js, lines 110–145): `done` terminates with the
resolved transaction; `timeout` resubmits while the attempt count is below
`maxTxMiningRetries` and otherwise fails with the timeout error; any other
status fails with the no-miners error when `expected_total_time = -1` and
otherwise updates the estimation, emits `estimation-updated` and stays
polling; a transport failure yields the unexpected error. -/
def pollStep (s : MinerState) (resp : PollResp) : MinerState × List MiningEvent :=
  match resp with
  | .transportError =>
    ({ s with phase := .failed .unexpected }, [.unexpectedError .unexpected])
  | .ok status ett tx =>
    if status = "done" then
      ({ s with phase := .succeeded tx }, [.jobDone s.jobID, .success tx])
    else if status = "timeout" then
      if s.countTxMiningAttempts < s.maxTxMiningRetries then
        ({ s with phase := .submitting }, [])
      else
        ({ s with phase := .failed .timeoutSolvingPow },
         [.sendError .timeoutSolvingPow])
    else if ett = -1 then
      ({ s with phase := .failed .noMiners }, [.sendError .noMiners])
    else
      ({ s with estimation := some ett },
       [.estimationUpdated s.jobID ett])

/-- Outcome of running the machine: final state, the events emitted in
order, and the indices of the next unconsumed submit and poll responses
(`pollIdx` counts the status polls issued when started from 0). -/
structure RunResult where
  state : MinerState
  events : List MiningEvent
  subIdx : Nat
  pollIdx : Nat
deriving Repr

/-- Fuel-bounded run of the state machine against response oracles: in the
submitting phase it consumes the next submit response, in the polling phase
the next poll response, and it stops in any terminal phase. -/
def runMachine : Nat → MinerState → (Nat → SubmitResp) → (Nat → PollResp) →
    Nat → Nat → RunResult
  | 0, s, _, _, si, pi => ⟨s, [], si, pi⟩
  | fuel + 1, s, subs, polls, si, pi =>
    match s.phase with
    | .submitting =>
      let step := submitStep s (subs si)
      let r := runMachine fuel step.1 subs polls (si + 1) pi
      ⟨r.state, step.2 ++ r.events, r.subIdx, r.pollIdx⟩
    | .polling =>
      let step := pollStep s (polls pi)
      let r := runMachine fuel step.1 subs polls si (pi + 1)
      ⟨r.state, step.2 ++ r.events, r.subIdx, r.pollIdx⟩
    | _ => ⟨s, [], si, pi⟩

theorem runMachine_polling (fuel : Nat) (s : MinerState) (subs : Nat → SubmitResp)
    (polls : Nat → PollResp) (si pi : Nat) (h : s.phase = .polling) :
    runMachine (fuel + 1) s subs polls si pi =
      ⟨(runMachine fuel (pollStep s (polls pi)).1 subs polls si (pi + 1)).state,
       (pollStep s (polls pi)).2 ++
         (runMachine fuel (pollStep s (polls pi)).1 subs polls si (pi + 1)).events,
       (runMachine fuel (pollStep s (polls pi)).1 subs polls si (pi + 1)).subIdx,
       (runMachine fuel (pollStep s (polls pi)).1 subs polls si (pi + 1)).pollIdx⟩ := by
  conv_lhs => rw [runMachine]
  rw [h]

theorem runMachine_submitting (fuel : Nat) (s : MinerState) (subs : Nat → SubmitResp)
    (polls : Nat → PollResp) (si pi : Nat) (h : s.phase = .submitting) :
    runMachine (fuel + 1) s subs polls si pi =
      ⟨(runMachine fuel (submitStep s (subs si)).1 subs polls (si + 1) pi).state,
       (submitStep s (subs si)).2 ++
         (runMachine fuel (submitStep s (subs si)).1 subs polls (si + 1) pi).events,
       (runMachine fuel (submitStep s (subs si)).1 subs polls (si + 1) pi).subIdx,
       (runMachine fuel (submitStep s (subs si)).1 subs polls (si + 1) pi).pollIdx⟩ := by
  conv_lhs => rw [runMachine]
  rw [h]

theorem runMachine_failed (fuel : Nat) (s : MinerState) (subs : Nat → SubmitResp)
    (polls : Nat → PollResp) (si pi : Nat) (e : MiningError)
    (h : s.phase = .failed e) :
    runMachine fuel s subs polls si pi = ⟨s, [], si, pi⟩ := by
  cases fuel <;> simp [runMachine, h]

/-- In the all-timeout scenario, starting from the polling phase with `c`
attempts already made and `k` retries remaining before the cap, the machine
resubmits `k` times (emitting one `job-submitted` per resubmission), then
fails with the timeout error, having issued `k + 1` further polls. -/
theorem runMachine_timeout_loop (subs : Nat → SubmitResp) (polls : Nat → PollResp)
    (jid : String) (ett pett : Int) (ptx : TxInfo)
    (hsub : ∀ n, subs n = .ok ett jid) (hett : ¬ ett = -1)
    (hpoll : ∀ n, polls n = .ok "timeout" pett ptx) :
    ∀ (k : Nat) (s : MinerState) (si pi : Nat),
    s.phase = .polling → 1 ≤ s.countTxMiningAttempts →
    s.countTxMiningAttempts + k = s.maxTxMiningRetries →
    runMachine (2 * k + 1) s subs polls si pi =
      ⟨{ s with
          phase := Phase.failed MiningError.timeoutSolvingPow
          countTxMiningAttempts := s.maxTxMiningRetries
          estimation := if k = 0 then s.estimation else some ett
          jobID := if k = 0 then s.jobID else some jid },
        List.replicate k (.jobSubmitted jid ett) ++ [.sendError .timeoutSolvingPow],
        si + k, pi + k + 1⟩ := by
  intro k
  induction k with
  | zero =>
    intro s si pi hph hc1 hcap
    obtain ⟨c, M, est, jid0, ph⟩ := s
    simp only at hph hcap
    subst hph
    have hc : c = M := by omega
    subst hc
    simp [runMachine, pollStep, hpoll, show ¬ c < c by omega]
  | succ k' ih =>
    intro s si pi hph hc1 hcap
    obtain ⟨c, M, est, jid0, ph⟩ := s
    simp only at hph hcap hc1
    subst hph
    have hlt : c < M := by omega
    have h1 : 2 * (k' + 1) + 1 = (2 * k' + 1 + 1) + 1 := by ring
    have step2 := ih ⟨c + 1, M, some ett, some jid, .polling⟩ (si + 1) (pi + 1)
      rfl (by simp) (by simp; omega)
    have hps : pollStep ⟨c, M, est, jid0, .polling⟩ (.ok "timeout" pett ptx) =
        (⟨c, M, est, jid0, .submitting⟩, []) := by
      simp [pollStep, hlt]
    have hss : submitStep ⟨c, M, est, jid0, .submitting⟩ (.ok ett jid) =
        (⟨c + 1, M, some ett, some jid, .polling⟩, [.jobSubmitted jid ett]) := by
      simp [submitStep, hett]
    rw [h1, runMachine_polling _ _ _ _ _ _ rfl, hpoll, hps]
    simp only
    rw [runMachine_submitting _ _ _ _ _ _ rfl, hsub, hss]
    simp only
    rw [step2]
    simp [List.replicate_succ, RunResult.mk.injEq, MinerState.mk.injEq, ite_self]
    omega

/-- C2 (amended): in a run where every status poll reports `timeout`, the
machine performs a full resubmission after each timeout while the attempt
count is still below `maxTxMiningRetries`, resubmitting `maxTxMiningRetries
− 1` times in a row (one `job-submitted` event per submission, the first
included), then terminates in Failed with the timeout error, with exactly
`maxTxMiningRetries` submissions in total — never more. -/
theorem miningMachine_all_timeouts (M : Nat) (subs : Nat → SubmitResp)
    (polls : Nat → PollResp) (jid : String) (ett pett : Int) (ptx : TxInfo)
    (hM : 1 ≤ M)
    (hsub : ∀ n, subs n = .ok ett jid) (hett : ¬ ett = -1)
    (hpoll : ∀ n, polls n = .ok "timeout" pett ptx) :
    runMachine (2 * M) (initState M) subs polls 0 0 =
      ⟨⟨M, M, some ett, some jid, .failed .timeoutSolvingPow⟩,
       .jobSubmitted jid ett ::
         (List.replicate (M - 1) (.jobSubmitted jid ett) ++
          [.sendError .timeoutSolvingPow]),
       M, M⟩ := by
  obtain ⟨M', rfl⟩ : ∃ m, M = m + 1 := ⟨M - 1, by omega⟩
  have h1 : 2 * (M' + 1) = (2 * M' + 1) + 1 := by ring
  have hss : submitStep (initState (M' + 1)) (.ok ett jid) =
      (⟨1, M' + 1, some ett, some jid, .polling⟩, [.jobSubmitted jid ett]) := by
    simp [submitStep, initState, hett]
  rw [h1, runMachine_submitting _ _ _ _ _ _ rfl, hsub, hss]
  simp only
  rw [runMachine_timeout_loop subs polls jid ett pett ptx hsub hett hpoll M'
    ⟨1, M' + 1, some ett, some jid, .polling⟩ 1 0 rfl (by simp)
    (show 1 + M' = M' + 1 by omega)]
  simp [RunResult.mk.injEq, MinerState.mk.injEq, ite_self]
  omega

/-- C2 witness: with `maxTxMiningRetries = 3` and every poll reporting
`timeout`, the machine submits three times in total (the initial submission
plus two resubmissions) and terminates in Failed with the timeout error. -/
theorem miningMachine_all_timeouts_witness :
    runMachine 6 (initState 3) (fun _ => .ok 10 "job1")
      (fun _ => .ok "timeout" 10 ⟨0, [], 0, 0⟩) 0 0 =
      ⟨⟨3, 3, some 10, some "job1", .failed .timeoutSolvingPow⟩,
       .jobSubmitted "job1" 10 ::
         (List.replicate 2 (.jobSubmitted "job1" 10) ++
          [.sendError .timeoutSolvingPow]),
       3, 3⟩ :=
  miningMachine_all_timeouts 3 (fun _ => .ok 10 "job1")
    (fun _ => .ok "timeout" 10 ⟨0, [], 0, 0⟩) "job1" 10 10 ⟨0, [], 0, 0⟩
    (by decide) (fun _ => rfl) (by decide) (fun _ => rfl)

/-- C2 counterexample: the claim as stated says the machine resubmits
`maxTxMiningRetries` times in a row (which, with the initial submission,
would make `maxTxMiningRetries + 1` submissions).  With
`maxTxMiningRetries = 3` the all-timeout run performs exactly 3 submissions
in total, so only 2 resubmissions — not 3 — before failing with the timeout
error. -/
theorem miningMachine_all_timeouts_cex :
    (runMachine 6 (initState 3) (fun _ => .ok 10 "job1")
      (fun _ => .ok "timeout" 10 ⟨0, [], 0, 0⟩) 0 0).state.countTxMiningAttempts
      = 3 ∧
    (runMachine 6 (initState 3) (fun _ => .ok 10 "job1")
      (fun _ => .ok "timeout" 10 ⟨0, [], 0, 0⟩) 0 0).state.phase =
      .failed .timeoutSolvingPow ∧
    (3 : Nat) - 1 ≠ 3 := by
  exact ⟨by decide, by decide, by decide⟩

/-- C7 (amended): for every status-poll response whose status is neither
`done` nor `timeout` and whose `expected_total_time` is not −1, the machine
updates its stored estimation from the response, emits exactly one
`estimation-updated` event, and its phase remains Polling (so the run
reschedules the next poll rather than terminating).  (Without the
`expected_total_time ≠ −1` proviso the claim is false — see the
counterexample.) -/
theorem pollStep_other_status (s : MinerState) (status : String) (ett : Int)
    (tx : TxInfo) (hs : s.phase = .polling)
    (hd : status ≠ "done") (ht : status ≠ "timeout") (hett : ett ≠ -1) :
    pollStep s (.ok status ett tx) =
      ({ s with estimation := some ett }, [.estimationUpdated s.jobID ett]) ∧
    ({ s with estimation := some ett } : MinerState).phase = .polling := by
  constructor
  · simp [pollStep, hd, ht, hett]
  · simpa using hs

/-- C7 witness: a concrete `mining` status response with a fresh estimation
keeps the machine polling and emits the estimation-updated event. -/
theorem pollStep_other_status_witness :
    pollStep ⟨1, 3, some 9, some "j", .polling⟩ (.ok "mining" 7 ⟨0, [], 0, 0⟩) =
      (⟨1, 3, some 7, some "j", .polling⟩, [.estimationUpdated (some "j") 7]) ∧
    (⟨1, 3, some 7, some "j", .polling⟩ : MinerState).phase = .polling :=
  pollStep_other_status ⟨1, 3, some 9, some "j", .polling⟩ "mining" 7
    ⟨0, [], 0, 0⟩ rfl (by decide) (by decide) (by decide)

/-- C7 counterexample: a poll response whose status is neither `done` nor
`timeout` but which reports `expected_total_time = -1` does terminate — the
machine fails with the no-miners error instead of remaining in Polling, so
the claim is false as stated. -/
theorem pollStep_other_status_cex :
    (pollStep ⟨1, 3, some 9, some "j", .polling⟩
      (.ok "mining" (-1) ⟨0, [], 0, 0⟩)).1.phase = .failed .noMiners ∧
    (pollStep ⟨1, 3, some 9, some "j", .polling⟩
      (.ok "mining" (-1) ⟨0, [], 0, 0⟩)).1.phase ≠ .polling ∧
    (pollStep ⟨1, 3, some 9, some "j", .polling⟩
      (.ok "mining" (-1) ⟨0, [], 0, 0⟩)).2 = [.sendError .noMiners] := by
  exact ⟨by decide, by decide, by decide⟩

/-- C8: a first-submission response with `expected_total_time = -1` (no
available mining capacity) drives the machine directly to Failed with the
no-miners error: one submission is counted, the only event is the no-miners
send-error, and zero status polls are issued (the poll index stays 0). -/
theorem submitNoMiners_spec (M fuel : Nat) (subs : Nat → SubmitResp)
    (polls : Nat → PollResp) (jid : String)
    (hsub : subs 0 = .ok (-1) jid) :
    runMachine (fuel + 1) (initState M) subs polls 0 0 =
      ⟨⟨1, M, none, none, .failed .noMiners⟩, [.sendError .noMiners], 1, 0⟩ := by
  have hss : submitStep (initState M) (.ok (-1) jid) =
      (⟨1, M, none, none, .failed .noMiners⟩, [.sendError .noMiners]) := by
    simp [submitStep, initState]
  rw [runMachine_submitting _ _ _ _ _ _ rfl, hsub, hss]
  simp only
  rw [runMachine_failed _ _ _ _ _ _ .noMiners rfl]
  rfl

/-- C8 witness: a concrete no-capacity submission response terminates the
machine immediately with the no-miners error and no polls. -/
theorem submitNoMiners_spec_witness :
    runMachine 5 (initState 3) (fun _ => .ok (-1) "j9")
      (fun _ => .ok "done" 1 ⟨0, [], 0, 0⟩) 0 0 =
      ⟨⟨1, 3, none, none, .failed .noMiners⟩, [.sendError .noMiners], 1, 0⟩ :=
  submitNoMiners_spec 3 4 (fun _ => .ok (-1) "j9")
    (fun _ => .ok "done" 1 ⟨0, [], 0, 0⟩) "j9" rfl

/-! ## Two-phase createToken (src/tokens.js, lines 271–298) -/

/-- The part of the `sendTransaction` response consumed by `createToken`:
`response.tx.hash` and `response.tx.tokens[0]` (the new token's uid). -/
structure CreateTokenResponse where
  txHash : String
  firstTokenUid : String
deriving DecidableEq, Repr

/-- Observable outcome of one `createToken` run: the settled promise
(resolution with the new token config, or rejection with the error message),
whether the follow-up mint was attempted, and whether the token was
registered (`addToken`) by the first phase. -/
structure CreateTokenRun where
  result : Except String TokenConfig
  mintAttempted : Bool
  tokenRegistered : Bool
deriving Repr

/-- `tokens.createToken(input, output, address, name, symbol, mintAmount,
pin)` (src/tokens.js, lines 271–298) as its promise chain: the creation
transaction is submitted first (`sendOutcome` is the settled outcome of that
external call); on rejection the whole operation rejects with that error and
the mint is never attempted; on success the token is registered via
`addToken` and the follow-up `mintTokens` call is made (`mintOutcome` is its
settled outcome), whose rejection rejects the whole operation — with the
token already registered — and whose success resolves the promise with
`{uid, name, symbol}`. -/
def createToken (name symbol : String)
    (sendOutcome : Except String CreateTokenResponse)
    (mintOutcome : Except String Unit) : CreateTokenRun :=
  match sendOutcome with
  | .error e => ⟨.error e, false, false⟩
  | .ok response =>
    match mintOutcome with
    | .error m => ⟨.error m, true, true⟩
    | .ok _ => ⟨.ok ⟨response.firstTokenUid, name, symbol⟩, true, true⟩

/-- C6: `createToken` is two-phase — when the first phase (creation
submission) fails, the whole operation rejects with that error and the
second phase (the follow-up mint) is never attempted; and when the first
phase succeeds but the second fails, the operation rejects with the mint's
error even though the token has already been created and registered by the
first phase. -/
theorem createToken_two_phase :
    (∀ (name symbol e : String) (mintOutcome : Except String Unit),
      createToken name symbol (.error e) mintOutcome =
        ⟨.error e, false, false⟩)
  ∧ (∀ (name symbol : String) (resp : CreateTokenResponse) (m : String),
      createToken name symbol (.ok resp) (.error m) =
        ⟨.error m, true, true⟩) :=
  ⟨fun _ _ _ _ => rfl, fun _ _ _ _ => rfl⟩

end Hathor
